import Mathlib

/-!
Verification development for the provider abstraction and streaming /
tool-call orchestration layer of `src/services/aiApiService.ts`.

The embedding translates the TypeScript source into executable Lean
definitions:

* `processChunkLines` embeds the inner `for (const line of lines)` loop of
  `BaseApiProvider.processStreamResponse`;
* `processStreamGo` / `processStreamResponse` embed the outer
  `while (true)` read loop, with the cooperative abort signal modelled as
  an `Option Nat` counting how many chunk reads happen before the signal
  is observed as triggered (the code checks `abortController?.signal.aborted`
  before every `reader.read()`);
* `processResponse` embeds `BaseApiProvider.processResponse`;
* `baseCall` embeds `BaseApiProvider.call` (non-2xx handling, the
  `config.stream !== false` branch, credential check before fetch);
* `kimiLoop` / `kimiCall` embed `KimiApiProvider.call`, the bounded
  tool-call loop (cap `maxToolCalls = 5`), with a `fuel` parameter that
  bounds the number of `while` iterations the model executes (the source
  loop can spin without incrementing `toolCallCount` when a `tool_calls`
  finish reason arrives with an empty tool-call list, so the embedding
  must be fuel-indexed to stay total);
* `callUnifiedAiApi` embeds the `callUnifiedAiApi` entry point including
  its usage-accounting hook invocation.

JSON parsing is not re-implemented: a stream line is embedded as the
*outcome* of `JSON.parse` on it (`Line.frame` for a line that parses,
`Line.malformed` for one that throws, `Line.done` for the `[DONE]`
sentinel, `Line.nonData` for a line that does not start with `data: `),
and a tool call carries the outcome of parsing its `arguments` field.
Neither concrete provider installs a `streamResponseTransformer` or
`responseTransformer`, so the default extraction paths are embedded.
-/

/-- A tool call emitted by the provider
(`choices[0].message.tool_calls[i]`).  `parsedQueryArgs` embeds the
outcome of `JSON.parse(toolCall.function.arguments)`: `some s` when the
arguments parse as a JSON object with a truthy `query` field and `s` is
the re-serialisation `JSON.stringify(argsObj)`; `none` when parsing fails
or `query` is absent (in both cases the source keeps the raw string). -/
structure ToolCall where
  id : String
  name : String
  arguments : String
  parsedQueryArgs : Option String := none
deriving Repr, DecidableEq

/-- A conversation message (`ExtendedMessage` in the source). -/
structure Message where
  role : String
  content : String
  tool_calls : List ToolCall := []
  tool_call_id : Option String := none
deriving Repr, DecidableEq

/-- The fields of a parsed stream frame that
`processStreamResponse` / `extractStreamContent` consult:
`choices[0].delta.content` and `choices[0].finish_reason`. -/
structure StreamFrame where
  deltaContent : Option String := none
  finishReason : Option String := none
deriving Repr, DecidableEq

/-- One line of a decoded stream chunk, classified by what the source
line scanner does with it: a line that does not start with `data: `, the
`[DONE]` sentinel, a data line that `JSON.parse` accepts (carrying its
parsed frame), or a data line that `JSON.parse` rejects. -/
inductive Line where
  | nonData (raw : String)
  | done
  | frame (f : StreamFrame)
  | malformed (raw : String)
deriving Repr, DecidableEq

/-- The fields of a non-streaming JSON response body that the source
consults: `choices[0].finish_reason`, `choices[0].message.content`
(`none` embeds an absent `choices`/`message`/`content` chain), and
`choices[0].message.tool_calls`. -/
structure ApiResponse where
  finishReason : Option String := none
  content : Option String := none
  toolCalls : List ToolCall := []
deriving Repr, DecidableEq

/-- An HTTP response from the provider endpoint.  `streamChunks` is the
body as delivered by `reader.read()`: a list of chunks, each a list of
classified lines; `jsonBody` is the body as parsed by `response.json()`.
The branch taken by the source decides which view is consumed. -/
structure HttpResponse where
  ok : Bool := true
  status : Nat := 200
  statusText : String := ""
  upstreamErrorMsg : Option String := none
  streamChunks : List (List Line) := []
  jsonBody : ApiResponse := {}
deriving Repr, DecidableEq

/-- State threaded through the stream decoder: the accumulated
`fullContent` string, the fragments passed to the `onStreamChunk`
callback in delivery order, and the number of chunk reads performed. -/
structure StreamState where
  fullContent : String := ""
  delivered : List String := []
  reads : Nat := 0
deriving Repr, DecidableEq

/-- Embeds `BaseApiProvider.extractStreamContent`: no content for a frame whose
finish reason is `tool_calls`; otherwise `choices[0].delta.content || null`
(an empty string is falsy in the source, hence yields `none`). -/
def extractStreamContent (parsed : StreamFrame) : Option String :=
  if parsed.finishReason = some "tool_calls" then none
  else
    match parsed.deltaContent with
    | some c => if c = "" then none else some c
    | none => none

/-- Record one fragment: `fullContent += content` together with the
`onChunk(content)` callback invocation. -/
def emitFragment (st : StreamState) (c : String) : StreamState :=
  { st with fullContent := st.fullContent ++ c, delivered := st.delivered ++ [c] }

/-- The inner `for (const line of lines)` loop of
`BaseApiProvider.processStreamResponse`: non-`data:` lines and lines
whose JSON fails to parse are skipped; the `[DONE]` sentinel breaks out
of the (inner) loop; a parsed frame contributes its extracted content and
a `tool_calls` finish reason breaks out of the (inner) loop after the
frame is handled. -/
def processChunkLines : List Line → StreamState → StreamState
  | [], st => st
  | Line.nonData _ :: rest, st => processChunkLines rest st
  | Line.malformed _ :: rest, st => processChunkLines rest st
  | Line.done :: _, st => st
  | Line.frame f :: rest, st =>
    let st' := match extractStreamContent f with
      | some c => emitFragment st c
      | none => st
    if f.finishReason = some "tool_calls" then st'
    else processChunkLines rest st'

/-- The outer `while (true)` read loop of
`BaseApiProvider.processStreamResponse`.  The abort signal is embedded as
`abortAt : Option Nat`: `some n` means the signal is observed as
triggered at the n-th pre-read check (and all later ones), `none` means
it never triggers.  Triggered signal: break without reading.  End of
chunks: `done`, break.  Otherwise: read one chunk and process its lines. -/
def processStreamGo : List (List Line) → Option Nat → StreamState → StreamState
  | [], _, st => st
  | chunk :: rest, abortAt, st =>
    if abortAt = some 0 then st
    else
      processStreamGo rest (abortAt.map Nat.pred)
        (processChunkLines chunk { st with reads := st.reads + 1 })

/-- Embeds `BaseApiProvider.processStreamResponse`, started from the empty
accumulator (an empty `fullContent`). -/
def processStreamResponse (chunks : List (List Line)) (abortAt : Option Nat) :
    StreamState :=
  processStreamGo chunks abortAt {}

/-- The fixed fallback answer used by the non-streaming decoder. -/
def fallbackReply : String := "抱歉，我无法回复您的消息。"

/-- Embeds `BaseApiProvider.processResponse` (default path, no
`responseTransformer`): empty string on a `tool_calls` finish reason,
otherwise `choices[0].message.content || fallback` (absent or empty
content is falsy and selects the fallback). -/
def processResponse (data : ApiResponse) : String :=
  if data.finishReason = some "tool_calls" then ""
  else
    match data.content with
    | some c => if c = "" then fallbackReply else c
    | none => fallbackReply

/-- One invocation of the usage-accounting hook
`usageTracker.trackUsage(provider, model, inputText, outputText)`. -/
structure TrackInvocation where
  providerName : String
  modelId : String
  inputText : String
  outputText : String
deriving Repr, DecidableEq

/-- Embeds the expression joining all message contents with single
spaces — the serialized input
passed to the usage hook. -/
def inputTextOf (messages : List Message) : String :=
  String.intercalate " " (messages.map (·.content))

/-- Observable outcome of one provider / gateway call: the resolved or
rejected value, the number of network requests issued, the fragments
delivered to `onStreamChunk`, and the usage-hook invocations, in order. -/
structure Outcome where
  result : Except String String
  requests : Nat
  delivered : List String
  track : List TrackInvocation
deriving Repr

/-- Error message thrown by `KimiApiProvider.getApiKey` when the
credential store has no secret for Moonshot. -/
def kimiMissingKeyMsg : String := "Kimi API Key 未配置，请在模型设置中添加API密钥"

/-- Error message thrown by `DeepSeekApiProvider.getApiKey` when the
credential store has no secret for DeepSeek. -/
def deepSeekMissingKeyMsg : String := "DeepSeek API Key 未配置，请在模型设置中添加API密钥"

/-- The error produced for a non-2xx HTTP status: the inner
`API 调用失败: status statusText upstreamMsg` throw, wrapped by the
catch block of the provider with its constructor name. -/
def httpErrorText (providerName : String) (r : HttpResponse) : String :=
  providerName ++ " API 调用失败: " ++ "API 调用失败: " ++ toString r.status
    ++ " " ++ r.statusText ++ " " ++ r.upstreamErrorMsg.getD ""

/-- Embeds `BaseApiProvider.call`: `getApiKey()` runs before the `fetch` (a
missing credential rejects with zero requests issued); a non-2xx status
rejects with the wrapped error; otherwise the `config.stream !== false`
flag (`streamCfg`) selects stream decoding or `processResponse`. -/
def baseCall (providerName missingKeyMsg : String) (storedKey : Option String)
    (response : HttpResponse) (streamCfg : Bool) (abortAt : Option Nat) : Outcome :=
  match storedKey with
  | none => ⟨.error missingKeyMsg, 0, [], []⟩
  | some _ =>
    if response.ok then
      if streamCfg then
        let st := processStreamResponse response.streamChunks abortAt
        ⟨.ok st.fullContent, 1, st.delivered, []⟩
      else
        ⟨.ok (processResponse response.jsonBody), 1, [], []⟩
    else
      ⟨.error (httpErrorText providerName response), 1, [], []⟩

/-- Embeds `DeepSeekApiProvider.call` (the inherited `BaseApiProvider.call`). -/
def deepSeekCall (storedKey : Option String) (response : HttpResponse)
    (streamCfg : Bool) (abortAt : Option Nat) : Outcome :=
  baseCall "DeepSeekApiProvider" deepSeekMissingKeyMsg storedKey response streamCfg abortAt

/-- The tool-call iteration cap (`maxToolCalls`) of `KimiApiProvider.call`. -/
def maxToolCalls : Nat := 5

/-- Content of the `tool`-role message pushed for one tool call: for
`$web_search`, the (possibly re-serialised) arguments string; for an
unrecognised tool name, the explicit unsupported-tool message. -/
def toolResultContent (tc : ToolCall) : String :=
  if tc.name = "$web_search" then
    match tc.parsedQueryArgs with
    | some s => s
    | none => tc.arguments
  else "不支持的工具调用: " ++ tc.name

/-- The `tool`-role message pushed for one tool call; its
`tool_call_id` is the provider-emitted `toolCall.id`. -/
def toolResultMessage (tc : ToolCall) : Message :=
  { role := "tool", content := toolResultContent tc, tool_call_id := some tc.id }

/-- The assistant message pushed when a response carries tool calls:
the role is `assistant`, the content is the message content or the
empty string when absent, and the tool calls are attached. -/
def assistantToolMessage (data : ApiResponse) : Message :=
  { role := "assistant"
    content := match data.content with | some c => c | none => ""
    tool_calls := data.toolCalls }

/-- Result of the `while (toolCallCount < maxToolCalls)` loop of
`KimiApiProvider.call`: normal exit (`done`, carrying the final
response text, the extended conversation, the tool-call count, and the
number of requests issued), a thrown error, or fuel exhaustion
(`outOfGas` is a model artifact: the source loop would keep iterating). -/
inductive KimiLoopOut where
  | done (finalResponse : String) (messages : List Message)
      (toolCallCount requests : Nat)
  | errored (msg : String) (requests : Nat)
  | outOfGas (requests : Nat)
deriving Repr, DecidableEq

/-- The non-streaming tool-call loop of `KimiApiProvider.call`
(`config.stream === false`).  Per iteration: loop condition, then
`getApiKey()`, then `fetch` (consulting `responses reqIdx`), then non-2xx
check, then the branch on a `tool_calls` finish reason.  A `tool_calls`
finish with a non-empty tool-call list appends the assistant message and
one `tool`-role message per tool call and loops with `toolCallCount + 1`;
with an empty list the source falls through and loops without
incrementing; otherwise the final response text is
`message?.content || fallback` and the loop breaks. -/
def kimiLoop (storedKey : Option String) (responses : Nat → HttpResponse) :
    Nat → Nat → Nat → List Message → String → KimiLoopOut
  | 0, toolCallCount, reqIdx, currentMessages, finalResponse =>
    if maxToolCalls ≤ toolCallCount then
      .done finalResponse currentMessages toolCallCount reqIdx
    else .outOfGas reqIdx
  | fuel + 1, toolCallCount, reqIdx, currentMessages, finalResponse =>
    if maxToolCalls ≤ toolCallCount then
      .done finalResponse currentMessages toolCallCount reqIdx
    else
      match storedKey with
      | none => .errored kimiMissingKeyMsg reqIdx
      | some _ =>
        if (responses reqIdx).ok then
          if (responses reqIdx).jsonBody.finishReason = some "tool_calls" then
            if (responses reqIdx).jsonBody.toolCalls.isEmpty then
              kimiLoop storedKey responses fuel toolCallCount (reqIdx + 1)
                currentMessages finalResponse
            else
              kimiLoop storedKey responses fuel (toolCallCount + 1) (reqIdx + 1)
                (currentMessages ++
                  assistantToolMessage (responses reqIdx).jsonBody ::
                    (responses reqIdx).jsonBody.toolCalls.map toolResultMessage)
                finalResponse
          else
            .done
              (match (responses reqIdx).jsonBody.content with
               | some c => if c = "" then fallbackReply else c
               | none => fallbackReply)
              currentMessages toolCallCount (reqIdx + 1)
        else
          .errored (httpErrorText "KimiApiProvider" (responses reqIdx)) (reqIdx + 1)

/-- Embeds `KimiApiProvider.call`.  With streaming enabled the first iteration
processes the stream and breaks, so the loop degenerates to a single
request; with streaming disabled it runs `kimiLoop`.  On success the
provider itself invokes the usage hook
(`usageTracker.trackUsage` with provider `Moonshot` and model `kimi`);
a thrown error propagates without tracking.  `none` is the fuel-exhaustion
model artifact. -/
def kimiCall (storedKey : Option String) (responses : Nat → HttpResponse)
    (messages : List Message) (streamCfg : Bool) (abortAt : Option Nat)
    (fuel : Nat) : Option Outcome :=
  if streamCfg then
    match storedKey with
    | none => some ⟨.error kimiMissingKeyMsg, 0, [], []⟩
    | some _ =>
      let r := responses 0
      if r.ok then
        let st := processStreamResponse r.streamChunks abortAt
        some ⟨.ok st.fullContent, 1, st.delivered,
          [⟨"Moonshot", "kimi", inputTextOf messages, st.fullContent⟩]⟩
      else some ⟨.error (httpErrorText "KimiApiProvider" r), 1, [], []⟩
  else
    match kimiLoop storedKey responses fuel 0 0 messages "" with
    | .done finalResponse _ _ reqs =>
      some ⟨.ok finalResponse, reqs, [],
        [⟨"Moonshot", "kimi", inputTextOf messages, finalResponse⟩]⟩
    | .errored msg reqs => some ⟨.error msg, reqs, [], []⟩
    | .outOfGas _ => none

/-- Embeds `callUnifiedAiApi`: resolve the provider via the factory (`kimi`,
`deepseek-v3.1`, otherwise throw the unsupported-model error before any
call), delegate, and on success invoke the usage hook once more with the
provider name derived from the model id.  A provider rejection is
re-thrown without gateway tracking. -/
def callUnifiedAiApi (modelId : String) (messages : List Message)
    (kimiKey deepSeekKey : Option String) (responses : Nat → HttpResponse)
    (streamCfg : Bool) (abortAt : Option Nat) (fuel : Nat) : Option Outcome :=
  if modelId = "kimi" then
    match kimiCall kimiKey responses messages streamCfg abortAt fuel with
    | none => none
    | some o =>
      match o.result with
      | .ok text =>
        some { o with
          track := o.track ++ [⟨"Moonshot", "kimi", inputTextOf messages, text⟩] }
      | .error _ => some o
  else if modelId = "deepseek-v3.1" then
    let o := deepSeekCall deepSeekKey (responses 0) streamCfg abortAt
    match o.result with
    | .ok text =>
      some { o with
        track := o.track ++
          [⟨"DeepSeek", "deepseek-v3.1", inputTextOf messages, text⟩] }
    | .error _ => some o
  else
    some ⟨.error ("不支持的模型: " ++ modelId ++ "，只支持 kimi 和 deepseek-v3.1"), 0, [], []⟩

/-- Concatenation of a fragment list, in delivery order. -/
def joinFrags : List String → String
  | [] => ""
  | c :: rest => c ++ joinFrags rest

/-- The fragments one chunk contributes, mirroring the control flow of
`processChunkLines`. -/
def chunkFrags : List Line → List String
  | [] => []
  | Line.nonData _ :: rest => chunkFrags rest
  | Line.malformed _ :: rest => chunkFrags rest
  | Line.done :: _ => []
  | Line.frame f :: rest =>
    let frags := match extractStreamContent f with
      | some c => [c]
      | none => []
    if f.finishReason = some "tool_calls" then frags
    else frags ++ chunkFrags rest

/-- The fragments the whole stream delivers under an abort schedule,
mirroring the control flow of `processStreamGo`. -/
def streamFrags : List (List Line) → Option Nat → List String
  | [], _ => []
  | chunk :: rest, abortAt =>
    if abortAt = some 0 then []
    else chunkFrags chunk ++ streamFrags rest (abortAt.map Nat.pred)

/-- The number of chunk reads the decoder performs under an abort
schedule. -/
def streamReads : List (List Line) → Option Nat → Nat
  | [], _ => 0
  | _ :: rest, abortAt =>
    if abortAt = some 0 then 0
    else streamReads rest (abortAt.map Nat.pred) + 1

/-- A chunk of well-formed frames, each carrying a content field. -/
def wellFormedChunk (contents : List String) : List Line :=
  contents.map (fun c => Line.frame { deltaContent := some c })

/-- A stream of well-formed frames, grouped into chunks. -/
def wellFormedStream (css : List (List String)) : List (List Line) :=
  css.map wellFormedChunk

/-- Concrete stream exhibiting a well-formed frame with an empty content
field: its fragment is not delivered to the callback. -/
def c4Chunk : List Line :=
  [Line.frame { deltaContent := some "a" },
   Line.frame { deltaContent := some "" },
   Line.frame { deltaContent := some "b" }]

/-- Concrete stream whose `[DONE]` sentinel is followed by a further
chunk carrying a well-formed frame. -/
def c8Chunks : List (List Line) :=
  [[Line.frame { deltaContent := some "a" }, Line.done],
   [Line.frame { deltaContent := some "b" }]]

/-- Concrete two-chunk stream used to witness C7. -/
def c7Resp : HttpResponse :=
  { streamChunks :=
      [[Line.frame { deltaContent := some "a" }],
       [Line.frame { deltaContent := some "b" }]] }

/-- A streaming provider response that would deliver content. -/
def c3RespHi : HttpResponse :=
  { streamChunks := [[Line.frame { deltaContent := some "hi" }]] }

/-- A streaming provider response that carries no content at all. -/
def c3RespNoContent : HttpResponse := { streamChunks := [] }

/-- A response that always asks for one more `$web_search` tool call. -/
def c2ToolResp : HttpResponse :=
  { jsonBody := { finishReason := some "tool_calls",
                  toolCalls := [{ id := "tc1", name := "$web_search",
                                  arguments := "q" }] } }

/-- Input message for the C9 witness scenario. -/
def c9UserMsg : Message := { role := "user", content := "hi" }

/-- Tool call emitted by the provider in the C9 witness scenario. -/
def c9Tc : ToolCall := { id := "call_1", name := "$web_search", arguments := "q" }

/-- First response: requests one `$web_search` tool call. -/
def c9ToolResp : HttpResponse :=
  { jsonBody := { finishReason := some "tool_calls", content := some "",
                  toolCalls := [c9Tc] } }

/-- Second response: the final answer. -/
def c9FinalResp : HttpResponse := { jsonBody := { content := some "done" } }

/-- Response oracle for the C9 witness scenario. -/
def c9Responses : Nat → HttpResponse :=
  fun i => if i = 0 then c9ToolResp else c9FinalResp

/-- The conversation after the witness loop: the input message, the
appended assistant message carrying the tool call, and the appended
`tool`-role result message referencing `call_1`. -/
def c9FinalMessages : List Message :=
  [c9UserMsg,
   { role := "assistant", content := "", tool_calls := [c9Tc] },
   { role := "tool", content := "q", tool_call_id := some "call_1" }]

/-- Messages of the end-to-end scenario. -/
def c1Messages : List Message := [{ role := "user", content := "2+2?" }]

/-- The single non-streaming provider payload carrying content "4". -/
def c1Resp : HttpResponse := { jsonBody := { content := some "4" } }

theorem joinFrags_append (a b : List String) :
    joinFrags (a ++ b) = joinFrags a ++ joinFrags b := by
  induction a with
  | nil => simp [joinFrags]
  | cons c rest ih => simp [joinFrags, ih, String.append_assoc]

/-- Processing one chunk appends exactly its fragments to the
accumulator and to the delivered list, and leaves the read counter
alone. -/
theorem processChunkLines_spec (c : List Line) (st : StreamState) :
    processChunkLines c st =
      ⟨st.fullContent ++ joinFrags (chunkFrags c),
       st.delivered ++ chunkFrags c, st.reads⟩ := by
  induction c generalizing st with
  | nil => simp [processChunkLines, chunkFrags, joinFrags]
  | cons ln rest ih =>
    cases ln with
    | nonData raw => simpa [processChunkLines, chunkFrags] using ih st
    | malformed raw => simpa [processChunkLines, chunkFrags] using ih st
    | done => simp [processChunkLines, chunkFrags, joinFrags]
    | frame f =>
      by_cases htool : f.finishReason = some "tool_calls"
      · cases hex : extractStreamContent f with
        | none =>
          simp [processChunkLines, chunkFrags, htool, hex, joinFrags]
        | some frag =>
          simp [processChunkLines, chunkFrags, htool, hex, joinFrags,
            emitFragment]
      · cases hex : extractStreamContent f with
        | none =>
          simp only [processChunkLines, chunkFrags, htool, hex, if_false]
          simpa [joinFrags] using ih st
        | some frag =>
          simp only [processChunkLines, chunkFrags, htool, hex, if_false]
          rw [ih]
          simp [emitFragment, joinFrags, String.append_assoc]

/-- The stream loop appends exactly `streamFrags` to the accumulator and
to the delivered list and performs `streamReads` chunk reads. -/
theorem processStreamGo_spec (chunks : List (List Line)) (abortAt : Option Nat)
    (st : StreamState) :
    processStreamGo chunks abortAt st =
      ⟨st.fullContent ++ joinFrags (streamFrags chunks abortAt),
       st.delivered ++ streamFrags chunks abortAt,
       st.reads + streamReads chunks abortAt⟩ := by
  induction chunks generalizing abortAt st with
  | nil => simp [processStreamGo, streamFrags, streamReads, joinFrags]
  | cons chunk rest ih =>
    by_cases h0 : abortAt = some 0
    · simp [processStreamGo, streamFrags, streamReads, h0, joinFrags]
    · simp only [processStreamGo, streamFrags, streamReads, h0, if_false]
      rw [processChunkLines_spec, ih]
      simp [joinFrags_append, String.append_assoc]
      omega

/-- Lemma: `processStreamResponse` delivers exactly `streamFrags`, accumulates
their concatenation, and reads `streamReads` chunks. -/
theorem processStreamResponse_spec (chunks : List (List Line))
    (abortAt : Option Nat) :
    processStreamResponse chunks abortAt =
      ⟨joinFrags (streamFrags chunks abortAt), streamFrags chunks abortAt,
       streamReads chunks abortAt⟩ := by
  have h := processStreamGo_spec chunks abortAt {}
  simpa [processStreamResponse, String.empty_append] using h

/-- A line whose JSON fails to parse is a pure no-op wherever it sits in
a chunk. -/
theorem processChunkLines_malformed (a b : List Line) (s : String)
    (st : StreamState) :
    processChunkLines (a ++ Line.malformed s :: b) st
      = processChunkLines (a ++ b) st := by
  induction a generalizing st with
  | nil => simp [processChunkLines]
  | cons ln rest ih =>
    cases ln with
    | nonData raw => simpa [processChunkLines] using ih st
    | malformed raw => simpa [processChunkLines] using ih st
    | done => simp [processChunkLines]
    | frame f =>
      by_cases htool : f.finishReason = some "tool_calls" <;>
        cases hex : extractStreamContent f <;>
          simp [processChunkLines, htool, hex, ih]

/-- Every line after the `[DONE]` sentinel within the same chunk is
ignored. -/
theorem processChunkLines_done_drop (a b : List Line) (st : StreamState) :
    processChunkLines (a ++ Line.done :: b) st
      = processChunkLines (a ++ [Line.done]) st := by
  induction a generalizing st with
  | nil => simp [processChunkLines]
  | cons ln rest ih =>
    cases ln with
    | nonData raw => simpa [processChunkLines] using ih st
    | malformed raw => simpa [processChunkLines] using ih st
    | done => simp [processChunkLines]
    | frame f =>
      by_cases htool : f.finishReason = some "tool_calls" <;>
        cases hex : extractStreamContent f <;>
          simp [processChunkLines, htool, hex, ih]

/-- Replacing one chunk by a chunk the line processor cannot tell apart
leaves the whole stream result unchanged. -/
theorem processStreamGo_chunk_congr (c₁ c₂ : List Line)
    (h : ∀ st, processChunkLines c₁ st = processChunkLines c₂ st)
    (pre post : List (List Line)) (abortAt : Option Nat) (st : StreamState) :
    processStreamGo (pre ++ c₁ :: post) abortAt st
      = processStreamGo (pre ++ c₂ :: post) abortAt st := by
  induction pre generalizing abortAt st with
  | nil =>
    by_cases h0 : abortAt = some 0 <;> simp [processStreamGo, h0, h]
  | cons chunk rest ih =>
    by_cases h0 : abortAt = some 0 <;> simp [processStreamGo, h0, ih]

/-- Under an abort schedule of `k` pre-read checks, the fragments are
exactly those of the first `k` chunks. -/
theorem streamFrags_some (chunks : List (List Line)) (k : Nat) :
    streamFrags chunks (some k) = ((chunks.take k).map chunkFrags).flatten := by
  induction chunks generalizing k with
  | nil => simp [streamFrags]
  | cons chunk rest ih =>
    cases k with
    | zero => simp [streamFrags]
    | succ k => simp [streamFrags, ih, Option.map]

/-- Under an abort schedule of `k` pre-read checks, exactly
`min k chunks.length` chunks are pulled. -/
theorem streamReads_some (chunks : List (List Line)) (k : Nat) :
    streamReads chunks (some k) = min k chunks.length := by
  induction chunks generalizing k with
  | nil => simp [streamReads]
  | cons chunk rest ih =>
    cases k with
    | zero => simp [streamReads]
    | succ k => simp [streamReads, ih, Option.map, Nat.succ_min_succ]

theorem chunkFrags_wellFormed (cs : List String) :
    chunkFrags (wellFormedChunk cs) = cs.filter (· != "") := by
  induction cs with
  | nil => simp [wellFormedChunk, chunkFrags]
  | cons c rest ih =>
    by_cases hc : c = ""
    · subst hc
      simp [wellFormedChunk, chunkFrags, extractStreamContent]
      simpa [wellFormedChunk] using ih
    · simp [wellFormedChunk, chunkFrags, extractStreamContent, hc]
      simpa [wellFormedChunk] using ih

theorem streamFrags_none (chunks : List (List Line)) :
    streamFrags chunks none = (chunks.map chunkFrags).flatten := by
  induction chunks with
  | nil => simp [streamFrags]
  | cons chunk rest ih => simp [streamFrags, ih, Option.map]

theorem streamFrags_wellFormed (css : List (List String)) :
    streamFrags (wellFormedStream css) none = css.flatten.filter (· != "") := by
  induction css with
  | nil => simp [wellFormedStream, streamFrags]
  | cons cs rest ih =>
    simp [wellFormedStream, streamFrags, chunkFrags_wellFormed,
      List.filter_append] at ih ⊢
    exact ih

/-- Sanity: a frame with content and none without. -/
example : extractStreamContent { deltaContent := some "hi" } = some "hi" := rfl

example :
    (processStreamResponse
      [[Line.frame { deltaContent := some "a" }],
       [Line.frame { deltaContent := some "b" }]] none).fullContent = "ab" := rfl

example :
    (processStreamResponse
      [[Line.frame { deltaContent := some "a" }],
       [Line.frame { deltaContent := some "b" }]] (some 1)).fullContent = "a" := rfl

example : processResponse {} = fallbackReply := rfl

example :
    (callUnifiedAiApi "deepseek-v3.1" [{ role := "user", content := "2+2?" }]
        none (some "sk") (fun _ => { jsonBody := { content := some "4" } })
        false none 5).map (fun o => (o.result, o.track.length))
      = some (Except.ok "4", 1) := rfl

example :
    (callUnifiedAiApi "kimi" [{ role := "user", content := "2+2?" }]
        (some "sk") none (fun _ => { jsonBody := { content := some "4" } })
        false none 5).map (fun o => (o.result, o.track.length))
      = some (Except.ok "4", 2) := rfl

example :
    (kimiCall (some "sk")
        (fun _ => { jsonBody := { finishReason := some "tool_calls",
                                  toolCalls := [{ id := "i", name := "$web_search",
                                                  arguments := "q" }] } })
        [] false none 5).map (fun o => (o.result, o.requests))
      = some (Except.ok "", 5) := rfl

/-- C4 counterexample: for the well-formed frames with content fields
`["a", "", "b"]`, the fragments passed to `onStreamChunk` are
`["a", "b"]` — the empty content field is falsy (`content || null`) and
is never delivered — so the delivered fragments are not the content fields of
the frames in arrival order, although their concatenation still
equals `"ab"`. -/
theorem c4_counterexample :
    (processStreamResponse [c4Chunk] none).delivered = ["a", "b"] ∧
    (processStreamResponse [c4Chunk] none).fullContent = "ab" ∧
    (["a", "b"] : List String) ≠ ["a", "", "b"] :=
  ⟨rfl, rfl, by decide⟩

/-- C4 (amended): for every stream and abort schedule, the accumulated
string equals the concatenation, in delivery order, of exactly the
fragments passed to the `onStreamChunk` callback; and for any sequence of
well-formed frames the delivered fragments are the NON-EMPTY
content fields of the frames in arrival order (an empty content field is skipped,
leaving the concatenation unchanged). -/
theorem c4_ordered_fragment_concatenation :
    (∀ (chunks : List (List Line)) (abortAt : Option Nat),
      (processStreamResponse chunks abortAt).fullContent
        = joinFrags (processStreamResponse chunks abortAt).delivered) ∧
    (∀ css : List (List String),
      (processStreamResponse (wellFormedStream css) none).delivered
        = css.flatten.filter (· != "")) := by
  constructor
  · intro chunks abortAt
    rw [processStreamResponse_spec]
  · intro css
    rw [processStreamResponse_spec]
    exact streamFrags_wellFormed css

/-- C5: a frame whose JSON fails to parse, injected between two
well-formed frames, neither halts the stream nor alters the final
decoded state: the result equals that of the same stream with the
malformed frame removed, chunk reads included. -/
theorem c5_malformed_frame_resilience (f₁ f₂ : StreamFrame) (s : String)
    (pre post : List (List Line)) (abortAt : Option Nat) :
    processStreamResponse
        (pre ++ [Line.frame f₁, Line.malformed s, Line.frame f₂] :: post) abortAt
      = processStreamResponse (pre ++ [Line.frame f₁, Line.frame f₂] :: post)
          abortAt :=
  processStreamGo_chunk_congr _ _
    (fun st => processChunkLines_malformed [Line.frame f₁] [Line.frame f₂] s st)
    pre post abortAt {}

/-- C8 counterexample: the `break` on the `[DONE]` sentinel only exits
the inner per-chunk line loop, not the outer read loop, so the fragment
`"b"` carried by a frame AFTER the sentinel is still delivered to the
callback and included in the returned text `"ab"`. -/
theorem c8_counterexample :
    (processStreamResponse c8Chunks none).delivered = ["a", "b"] ∧
    (processStreamResponse c8Chunks none).fullContent = "ab" :=
  ⟨rfl, rfl⟩

/-- C8 (amended): the `[DONE]` sentinel ends processing of the REMAINING
LINES OF ITS OWN CHUNK without error — the decode result is the same as
if the sentinel were the last line of the chunk — but the decoder keeps
reading subsequent chunks, whose fragments are still delivered. -/
theorem c8_sentinel_ends_current_chunk (a b : List Line)
    (pre post : List (List Line)) (abortAt : Option Nat) :
    processStreamResponse (pre ++ (a ++ Line.done :: b) :: post) abortAt
      = processStreamResponse (pre ++ (a ++ [Line.done]) :: post) abortAt :=
  processStreamGo_chunk_congr _ _
    (fun st => processChunkLines_done_drop a b st) pre post abortAt {}

/-- C7: when the cancellation signal triggers at the k-th pre-read
check, the call resolves (no error) to the concatenation of exactly the
fragments delivered from the first k chunks; those are exactly the
delivered fragments, and the decoder pulls no further chunks
(`min k chunks.length` reads). -/
theorem c7_cancellation_returns_partial (key : String) (resp : HttpResponse)
    (k : Nat) (hok : resp.ok = true) :
    (deepSeekCall (some key) resp true (some k)).result
        = .ok (joinFrags (streamFrags resp.streamChunks (some k))) ∧
    (deepSeekCall (some key) resp true (some k)).delivered
        = streamFrags resp.streamChunks (some k) ∧
    streamFrags resp.streamChunks (some k)
        = ((resp.streamChunks.take k).map chunkFrags).flatten ∧
    (processStreamResponse resp.streamChunks (some k)).reads
        = min k resp.streamChunks.length := by
  refine ⟨?_, ?_, streamFrags_some _ _, ?_⟩ <;>
    simp [deepSeekCall, baseCall, hok, processStreamResponse_spec,
      streamReads_some]

/-- C7 witness: cancelling after one of two chunk reads yields exactly
the first fragment. -/
theorem c7_witness :
    c7Resp.ok = true ∧
    ((deepSeekCall (some "sk") c7Resp true (some 1)).result
        = .ok (joinFrags (streamFrags c7Resp.streamChunks (some 1))) ∧
     (deepSeekCall (some "sk") c7Resp true (some 1)).delivered
        = streamFrags c7Resp.streamChunks (some 1) ∧
     streamFrags c7Resp.streamChunks (some 1)
        = ((c7Resp.streamChunks.take 1).map chunkFrags).flatten ∧
     (processStreamResponse c7Resp.streamChunks (some 1)).reads
        = min 1 c7Resp.streamChunks.length) :=
  ⟨rfl, c7_cancellation_returns_partial "sk" c7Resp 1 rfl⟩

/-- C3 counterexample: a cancellation observed before any bytes are read
resolves to the empty string — exactly the same observable result as a
provider that returned no content — so the outcome is NOT distinguishable
from "provider returned nothing" (the third conjunct shows the provider
would have produced "hi" absent the cancellation). -/
theorem c3_counterexample :
    (deepSeekCall (some "sk") c3RespHi true (some 0)).result = Except.ok "" ∧
    (deepSeekCall (some "sk") c3RespNoContent true none).result = Except.ok "" ∧
    (deepSeekCall (some "sk") c3RespHi true none).result = Except.ok "hi" :=
  ⟨rfl, rfl, rfl⟩

/-- C3 (amended): a cancellation observed before any chunk read resolves
(does not throw) to the empty string with no fragments delivered — the
same value as a provider that returned no content, with no distinguishing
signal — and more generally a cancellation observed during stream
processing never throws: for every abort schedule the call resolves with
the partial data accumulated so far. -/
theorem c3_cancel_before_first_read (key : String) (resp : HttpResponse)
    (hok : resp.ok = true) :
    (deepSeekCall (some key) resp true (some 0)).result = .ok "" ∧
    (deepSeekCall (some key) resp true (some 0)).delivered = [] ∧
    ∀ abortAt, (deepSeekCall (some key) resp true abortAt).result
        = .ok (processStreamResponse resp.streamChunks abortAt).fullContent := by
  refine ⟨?_, ?_, fun abortAt => ?_⟩ <;>
    simp [deepSeekCall, baseCall, hok, processStreamResponse_spec,
      streamFrags_some, joinFrags]

/-- C3 witness. -/
theorem c3_witness :
    c3RespHi.ok = true ∧
    ((deepSeekCall (some "sk") c3RespHi true (some 0)).result = .ok "" ∧
     (deepSeekCall (some "sk") c3RespHi true (some 0)).delivered = [] ∧
     ∀ abortAt, (deepSeekCall (some "sk") c3RespHi true abortAt).result
        = .ok (processStreamResponse c3RespHi.streamChunks abortAt).fullContent) :=
  ⟨rfl, c3_cancel_before_first_read "sk" c3RespHi rfl⟩

/-- C10: for a non-streaming response with no `tool_calls` finish reason
and absent-or-empty assistant content, the default decoder returns the
fixed fallback apology — a non-empty string — and the public call
resolves to that fallback, so an empty provider answer is
indistinguishable from the built-in apology text at the interface. -/
theorem c10_empty_content_fallback (d : ApiResponse) (key : String)
    (resp : HttpResponse) (hfr : d.finishReason ≠ some "tool_calls")
    (hc : d.content = none ∨ d.content = some "")
    (hok : resp.ok = true) (hbody : resp.jsonBody = d) :
    processResponse d = fallbackReply ∧ fallbackReply ≠ "" ∧
    (deepSeekCall (some key) resp false none).result = .ok fallbackReply := by
  have h1 : processResponse d = fallbackReply := by
    rcases hc with h | h <;> simp [processResponse, hfr, h]
  exact ⟨h1, by decide, by simp [deepSeekCall, baseCall, hok, hbody, h1]⟩

/-- C10 witness: the response with absent content and no finish reason. -/
theorem c10_witness :
    ((({} : ApiResponse).finishReason ≠ some "tool_calls") ∧
     (({} : ApiResponse).content = none ∨ ({} : ApiResponse).content = some "") ∧
     ({} : HttpResponse).ok = true ∧ ({} : HttpResponse).jsonBody = {}) ∧
    (processResponse {} = fallbackReply ∧ fallbackReply ≠ "" ∧
     (deepSeekCall (some "sk") {} false none).result = .ok fallbackReply) :=
  ⟨⟨by decide, Or.inl rfl, rfl, rfl⟩,
   c10_empty_content_fallback {} "sk" {} (by decide) (Or.inl rfl) rfl rfl⟩

/-- C6: with no credential configured, both providers reject with their
missing-credential error and issue zero network requests — the
credential check precedes any network access (this holds for the shared
`BaseApiProvider.call` protocol and for the overridden
`KimiApiProvider.call` loop, streaming or not). -/
theorem c6_missing_credential_no_request (resp : HttpResponse)
    (streamCfg : Bool) (abortAt : Option Nat)
    (responses : Nat → HttpResponse) (messages : List Message)
    (fuel : Nat) (hfuel : 1 ≤ fuel) :
    deepSeekCall none resp streamCfg abortAt
        = ⟨.error deepSeekMissingKeyMsg, 0, [], []⟩ ∧
    kimiCall none responses messages streamCfg abortAt fuel
        = some ⟨.error kimiMissingKeyMsg, 0, [], []⟩ := by
  obtain ⟨f, rfl⟩ : ∃ f, fuel = f + 1 := ⟨fuel - 1, by omega⟩
  constructor
  · rfl
  · cases streamCfg <;> simp [kimiCall, kimiLoop, maxToolCalls]

/-- C6 witness. -/
theorem c6_witness :
    1 ≤ 1 ∧
    (deepSeekCall none {} false none
        = ⟨.error deepSeekMissingKeyMsg, 0, [], []⟩ ∧
     kimiCall none (fun _ => {}) [] false none 1
        = some ⟨.error kimiMissingKeyMsg, 0, [], []⟩) :=
  ⟨Nat.le_refl 1,
   c6_missing_credential_no_request {} false none (fun _ => {}) [] 1 (Nat.le_refl 1)⟩

/-- The loop never rewinds its request counter: normal termination
reports at least as many requests as had been issued on entry. -/
theorem kimiLoop_requests_le (key : Option String)
    (responses : Nat → HttpResponse) :
    ∀ (fuel cnt req : Nat) (msgs : List Message) (fr fr' : String)
      (msgs' : List Message) (cnt' req' : Nat),
    kimiLoop key responses fuel cnt req msgs fr = .done fr' msgs' cnt' req' →
    req ≤ req' := by
  intro fuel
  induction fuel with
  | zero =>
    intro cnt req msgs fr fr' msgs' cnt' req' h
    simp only [kimiLoop] at h
    by_cases h5 : maxToolCalls ≤ cnt
    · rw [if_pos h5] at h
      injection h with h1 h2 h3 h4
      omega
    · rw [if_neg h5] at h
      cases h
  | succ f ih =>
    intro cnt req msgs fr fr' msgs' cnt' req' h
    simp only [kimiLoop] at h
    by_cases h5 : maxToolCalls ≤ cnt
    · rw [if_pos h5] at h
      injection h with h1 h2 h3 h4
      omega
    · rw [if_neg h5] at h
      cases key with
      | none => cases h
      | some k =>
        simp only at h
        by_cases hok : (responses req).ok
        · rw [if_pos hok] at h
          by_cases hfr : (responses req).jsonBody.finishReason = some "tool_calls"
          · rw [if_pos hfr] at h
            by_cases hemp : (responses req).jsonBody.toolCalls.isEmpty
            · rw [if_pos hemp] at h
              exact Nat.le_of_succ_le (ih _ _ _ _ _ _ _ _ h)
            · rw [if_neg hemp] at h
              exact Nat.le_of_succ_le (ih _ _ _ _ _ _ _ _ h)
          · rw [if_neg hfr] at h
            injection h with h1 h2 h3 h4
            omega
        · rw [if_neg hok] at h
          cases h

/-- When every consulted response carries a `tool_calls` finish reason
with a non-empty tool-call list, the loop runs until the cap and exits
normally with the untouched accumulated text and one request per
remaining iteration. -/
theorem kimiLoop_all_tool_calls (key : String)
    (responses : Nat → HttpResponse) :
    ∀ (n fuel cnt req : Nat) (msgs : List Message) (fr : String),
    cnt + n = maxToolCalls → n ≤ fuel →
    (∀ i, req ≤ i → i < req + n →
      (responses i).ok = true ∧
      (responses i).jsonBody.finishReason = some "tool_calls" ∧
      (responses i).jsonBody.toolCalls ≠ []) →
    ∃ msgs', kimiLoop (some key) responses fuel cnt req msgs fr
        = .done fr msgs' maxToolCalls (req + n) := by
  intro n
  induction n with
  | zero =>
    intro fuel cnt req msgs fr hcnt hfuel hresp
    have hc : cnt = maxToolCalls := by omega
    subst hc
    refine ⟨msgs, ?_⟩
    cases fuel <;> simp [kimiLoop]
  | succ n ih =>
    intro fuel cnt req msgs fr hcnt hfuel hresp
    have h5 : ¬ maxToolCalls ≤ cnt := by simp [maxToolCalls] at hcnt ⊢; omega
    cases fuel with
    | zero => omega
    | succ f =>
      obtain ⟨hok, hfr, htc⟩ := hresp req (Nat.le_refl req) (by omega)
      have hne : (responses req).jsonBody.toolCalls.isEmpty = false := by
        cases hl : (responses req).jsonBody.toolCalls with
        | nil => exact absurd hl htc
        | cons a l => rfl
      have step : kimiLoop (some key) responses (f + 1) cnt req msgs fr
          = kimiLoop (some key) responses f (cnt + 1) (req + 1)
              (msgs ++ assistantToolMessage (responses req).jsonBody ::
                (responses req).jsonBody.toolCalls.map toolResultMessage) fr := by
        simp only [kimiLoop, if_neg h5, hok, if_true, hfr, if_pos, hne,
          Bool.false_eq_true, if_false]
      rw [step]
      obtain ⟨msgs', hdone⟩ := ih f (cnt + 1) (req + 1) _ fr (by omega) (by omega)
        (fun i h1 h2 => hresp i (by omega) (by omega))
      have harith : req + 1 + n = req + (n + 1) := by omega
      rw [harith] at hdone
      exact ⟨msgs', hdone⟩

/-- C2: when every response of a non-streaming call carries a
`tool_calls` finish reason with at least one tool call,
`KimiApiProvider.call` terminates after exactly `maxToolCalls = 5`
round-trip requests and resolves — never throws — with the accumulated
assistant text, which in this scenario is the empty string (the loop
never reaches the branch that assigns a final response). -/
theorem c2_tool_loop_terminates_at_cap (key : String)
    (responses : Nat → HttpResponse) (messages : List Message) (fuel : Nat)
    (hresp : ∀ i < maxToolCalls,
      (responses i).ok = true ∧
      (responses i).jsonBody.finishReason = some "tool_calls" ∧
      (responses i).jsonBody.toolCalls ≠ [])
    (hfuel : maxToolCalls ≤ fuel) :
    kimiCall (some key) responses messages false none fuel
      = some ⟨.ok "", maxToolCalls, [],
          [⟨"Moonshot", "kimi", inputTextOf messages, ""⟩]⟩ := by
  obtain ⟨msgs', hdone⟩ := kimiLoop_all_tool_calls key responses maxToolCalls
    fuel 0 0 messages "" (by omega) hfuel
    (fun i h1 h2 => hresp i (by omega))
  rw [Nat.zero_add] at hdone
  simp [kimiCall, hdone]

/-- C2 witness: a provider that always requests another tool call is cut
off after exactly 5 requests with the empty final text. -/
theorem c2_witness :
    (∀ i < maxToolCalls,
      ((fun _ => c2ToolResp) i : HttpResponse).ok = true ∧
      ((fun _ => c2ToolResp) i : HttpResponse).jsonBody.finishReason
          = some "tool_calls" ∧
      ((fun _ => c2ToolResp) i : HttpResponse).jsonBody.toolCalls ≠ []) ∧
    maxToolCalls ≤ 5 ∧
    kimiCall (some "sk") (fun _ => c2ToolResp) [] false none 5
      = some ⟨.ok "", maxToolCalls, [],
          [⟨"Moonshot", "kimi", inputTextOf [], ""⟩]⟩ :=
  ⟨by decide, by decide,
   c2_tool_loop_terminates_at_cap "sk" (fun _ => c2ToolResp) [] 5
     (by decide) (by decide)⟩

/-- C9: throughout the non-streaming tool-call loop the conversation is
only ever extended by appending — on normal termination the input
conversation is an unchanged prefix of the final one — and every
appended `tool`-role message carries a `tool_call_id` equal to the id of
a tool call emitted by some provider response consulted during that loop
(request indices between entry and exit), never one synthesized by the
orchestrator. -/
theorem c9_append_only_tool_call_ids (key : Option String)
    (responses : Nat → HttpResponse) :
    ∀ (fuel cnt req : Nat) (msgs : List Message) (fr fr' : String)
      (msgs' : List Message) (cnt' req' : Nat),
    kimiLoop key responses fuel cnt req msgs fr = .done fr' msgs' cnt' req' →
    msgs'.take msgs.length = msgs ∧
    ∀ m ∈ msgs'.drop msgs.length, m.role = "tool" →
      ∃ j, req ≤ j ∧ j < req' ∧
        ∃ tc ∈ (responses j).jsonBody.toolCalls, m.tool_call_id = some tc.id := by
  intro fuel
  induction fuel with
  | zero =>
    intro cnt req msgs fr fr' msgs' cnt' req' h
    simp only [kimiLoop] at h
    by_cases h5 : maxToolCalls ≤ cnt
    · rw [if_pos h5] at h
      injection h with h1 h2 h3 h4
      subst h2
      refine ⟨List.take_length msgs, fun m hm hrole => ?_⟩
      rw [List.drop_length] at hm
      cases hm
    · rw [if_neg h5] at h
      cases h
  | succ f ih =>
    intro cnt req msgs fr fr' msgs' cnt' req' h
    simp only [kimiLoop] at h
    by_cases h5 : maxToolCalls ≤ cnt
    · rw [if_pos h5] at h
      injection h with h1 h2 h3 h4
      subst h2
      refine ⟨List.take_length msgs, fun m hm hrole => ?_⟩
      rw [List.drop_length] at hm
      cases hm
    · rw [if_neg h5] at h
      cases key with
      | none => cases h
      | some k =>
        simp only at h
        by_cases hok : (responses req).ok
        · rw [if_pos hok] at h
          by_cases hfr : (responses req).jsonBody.finishReason = some "tool_calls"
          · rw [if_pos hfr] at h
            by_cases hemp : (responses req).jsonBody.toolCalls.isEmpty
            · rw [if_pos hemp] at h
              obtain ⟨ht, hp⟩ := ih _ _ _ _ _ _ _ _ h
              refine ⟨ht, fun m hm hrole => ?_⟩
              obtain ⟨j, hj1, hj2, rest⟩ := hp m hm hrole
              exact ⟨j, by omega, hj2, rest⟩
            · rw [if_neg hemp] at h
              have hreq' : req + 1 ≤ req' :=
                kimiLoop_requests_le (some k) responses f (cnt + 1) (req + 1)
                  _ fr fr' msgs' cnt' req' h
              obtain ⟨ht2, hp2⟩ := ih _ _ _ _ _ _ _ _ h
              have hsplit : msgs' =
                  (msgs ++ assistantToolMessage (responses req).jsonBody ::
                    (responses req).jsonBody.toolCalls.map toolResultMessage) ++
                  msgs'.drop (msgs ++ assistantToolMessage (responses req).jsonBody ::
                    (responses req).jsonBody.toolCalls.map toolResultMessage).length := by
                conv_lhs =>
                  rw [← List.take_append_drop
                    (msgs ++ assistantToolMessage (responses req).jsonBody ::
                      (responses req).jsonBody.toolCalls.map toolResultMessage).length
                    msgs']
                rw [ht2]
              rw [List.append_assoc] at hsplit
              constructor
              · rw [hsplit]
                exact List.take_left _ _
              · intro m hm hrole
                rw [hsplit, List.drop_left] at hm
                rcases List.mem_append.mp hm with hmn | hmt
                · rcases List.mem_cons.mp hmn with heq | hmap
                  · subst heq
                    simp [assistantToolMessage] at hrole
                  · obtain ⟨tc, htc, hmtc⟩ := List.mem_map.mp hmap
                    subst hmtc
                    exact ⟨req, Nat.le_refl req, by omega, tc, htc, rfl⟩
                · obtain ⟨j, hj1, hj2, rest⟩ := hp2 m hmt hrole
                  exact ⟨j, by omega, hj2, rest⟩
          · rw [if_neg hfr] at h
            injection h with h1 h2 h3 h4
            subst h2
            refine ⟨List.take_length msgs, fun m hm hrole => ?_⟩
            rw [List.drop_length] at hm
            cases hm
        · rw [if_neg hok] at h
          cases h

/-- C9 witness: one tool round-trip followed by a final answer. -/
theorem c9_witness :
    kimiLoop (some "sk") c9Responses 5 0 0 [c9UserMsg] ""
        = .done "done" c9FinalMessages 1 2 ∧
    (c9FinalMessages.take 1 = [c9UserMsg] ∧
     ∀ m ∈ c9FinalMessages.drop 1, m.role = "tool" →
       ∃ j, 0 ≤ j ∧ j < 2 ∧
         ∃ tc ∈ (c9Responses j).jsonBody.toolCalls,
           m.tool_call_id = some tc.id) :=
  ⟨rfl, c9_append_only_tool_call_ids (some "sk") c9Responses 5 0 0 [c9UserMsg]
    "" "done" c9FinalMessages 1 2 rfl⟩

/-- C1 counterexample: through the unified entry point with the
supported model identifier `kimi` and a single non-streaming payload
carrying content "4", the call resolves to "4" but the usage-accounting
hook fires TWICE (once inside `KimiApiProvider.call`, once again in
`callUnifiedAiApi`), not exactly once as claimed. -/
theorem c1_counterexample :
    callUnifiedAiApi "kimi" c1Messages (some "sk") (some "sk")
        (fun _ => c1Resp) false none 5
      = some ⟨.ok "4", 1, [],
          [⟨"Moonshot", "kimi", "2+2?", "4"⟩,
           ⟨"Moonshot", "kimi", "2+2?", "4"⟩]⟩ ∧
    ([⟨"Moonshot", "kimi", "2+2?", "4"⟩,
      ⟨"Moonshot", "kimi", "2+2?", "4"⟩] : List TrackInvocation).length ≠ 1 :=
  ⟨rfl, by decide⟩

/-- C1 (amended): with a supported model identifier, a non-streaming
provider payload carrying content "4" makes the unified call resolve to
"4", and every usage-hook invocation carries outputText "4"; the hook is
invoked exactly once for `deepseek-v3.1` (by the gateway) but exactly
twice for `kimi` (`KimiApiProvider.call` tracks usage itself and the
gateway tracks again). -/
theorem c1_unified_call_usage_tracking (responses : Nat → HttpResponse)
    (messages : List Message) (kKey dKey : String) (fuel : Nat)
    (hok : (responses 0).ok = true)
    (hfr : (responses 0).jsonBody.finishReason ≠ some "tool_calls")
    (hc : (responses 0).jsonBody.content = some "4")
    (hfuel : 1 ≤ fuel) :
    callUnifiedAiApi "kimi" messages (some kKey) (some dKey) responses
        false none fuel
      = some ⟨.ok "4", 1, [],
          [⟨"Moonshot", "kimi", inputTextOf messages, "4"⟩,
           ⟨"Moonshot", "kimi", inputTextOf messages, "4"⟩]⟩ ∧
    callUnifiedAiApi "deepseek-v3.1" messages (some kKey) (some dKey)
        responses false none fuel
      = some ⟨.ok "4", 1, [],
          [⟨"DeepSeek", "deepseek-v3.1", inputTextOf messages, "4"⟩]⟩ := by
  obtain ⟨f, rfl⟩ : ∃ f, fuel = f + 1 := ⟨fuel - 1, by omega⟩
  have hloop : kimiLoop (some kKey) responses (f + 1) 0 0 messages ""
      = .done "4" messages 0 1 := by
    simp [kimiLoop, maxToolCalls, hok, hfr, hc]
  constructor
  · simp [callUnifiedAiApi, kimiCall, hloop]
  · simp [callUnifiedAiApi, deepSeekCall, baseCall, hok,
      processResponse, hfr, hc]

/-- C1 witness for the amended statement. -/
theorem c1_witness :
    ((fun _ => c1Resp : Nat → HttpResponse) 0).ok = true ∧
    ((fun _ => c1Resp : Nat → HttpResponse) 0).jsonBody.finishReason
        ≠ some "tool_calls" ∧
    ((fun _ => c1Resp : Nat → HttpResponse) 0).jsonBody.content = some "4" ∧
    1 ≤ 5 ∧
    (callUnifiedAiApi "kimi" c1Messages (some "sk") (some "sk")
        (fun _ => c1Resp) false none 5
      = some ⟨.ok "4", 1, [],
          [⟨"Moonshot", "kimi", inputTextOf c1Messages, "4"⟩,
           ⟨"Moonshot", "kimi", inputTextOf c1Messages, "4"⟩]⟩ ∧
     callUnifiedAiApi "deepseek-v3.1" c1Messages (some "sk") (some "sk")
        (fun _ => c1Resp) false none 5
      = some ⟨.ok "4", 1, [],
          [⟨"DeepSeek", "deepseek-v3.1", inputTextOf c1Messages, "4"⟩]⟩) :=
  ⟨rfl, by decide, rfl, by decide,
   c1_unified_call_usage_tracking (fun _ => c1Resp) c1Messages "sk" "sk" 5
     rfl (by decide) rfl (by decide)⟩
